import Mathlib

/-!
Verification of the tensor-parallel integration module
(`src/transformers/integrations/tensor_parallel.py`).

The development shallowly embeds the pure core of the module:

* parameter-name manipulation (`re.sub(r"\d+", "*", name)`, `rsplit(".", 1)`)
  as functions on `List Char` / `String`;
* the block-size calculator `_blocks_to_block_sizes`;
* the plan resolver `_get_parameter_tp_plan` over an association-list model of
  the Python `dict`;
* the packed-weight partitioner `get_packed_weights` and its inverse
  `repack_weights`.  Tensors are modelled along the sharded axis only: an
  n-dimensional tensor whose sharded axis has extent `n` is a function
  `Nat → α` (index along that axis ↦ cross-section), because every branch of
  the source (`dim ∈ {0, 1, 2, -1, -2}`) performs the same index selection
  along its own axis and leaves every other axis untouched.  `view` /
  `permute` / `reshape_as` in `repack_weights` likewise only permute indices
  of the sharded axis (prefix and suffix axes are preserved verbatim), so the
  axis model is exact.  Fallible Python code (assert, raise) becomes `Except`;
* the plain shard `get_tensor_shard`;
* the value-level behaviour of `shard_and_distribute_module` over a small
  tensor record carrying payload, dtype tag and contiguity flag
  (the `DTensor` wrapping is value-preserving and carries only placement);
* the hook-installation guards of `distribute_module` and
  `shard_and_distribute_module` as a transition function on a per-module
  hook-count record;
* `verify_tp_plan`, including the aliasing `unused_rules = tp_plan`
  (the dictionary is threaded as state and returned, mirroring the in-place
  mutation of the caller's dict) and the string tuple-unpacking of
  `param_name, _ = key.rsplit(".", 1) if "." in key else key`.
-/

/-- Python exception kinds relevant to this module.  `except NotImplementedError`
clauses catch only the first constructor. -/
inductive PyErr where
  | notImplementedError (msg : String)
  | valueError (msg : String)
  | assertionError (msg : String)
  | zeroDivisionError (msg : String)
  deriving DecidableEq, Repr

deriving instance DecidableEq for Except

/-- `re.sub(r"\d+", "*", s)` on a character list: every maximal run of digits
is replaced by a single `*`.  `inRun` records whether the previous character
was part of a digit run already replaced. -/
def genericAux (inRun : Bool) : List Char → List Char
  | [] => []
  | c :: cs =>
      if c.isDigit then
        (if inRun then genericAux true cs else '*' :: genericAux true cs)
      else c :: genericAux false cs

/-- `re.sub(r"\d+", "*", parameter_name)`: the "generic" parameter name. -/
def genericName (s : String) : String :=
  ⟨genericAux false s.data⟩

/-- `s.rsplit(".", 1)[0]` for a string containing a dot: everything before the
last `.`. -/
def beforeLastDot (s : String) : String :=
  ⟨((s.data.reverse.dropWhile (fun c => !(c == '.'))).drop 1).reverse⟩

/-- `s.rsplit(".", 1)[1]` for a string containing a dot: everything after the
last `.`. -/
def afterLastDot (s : String) : String :=
  ⟨(s.data.reverse.takeWhile (fun c => !(c == '.'))).reverse⟩

/-- The idiom `a, b = s.rsplit(".", 1) if "." in s else s` from the source
(lines 756 and 808).  When `s` contains no dot, Python tuple-unpacks the
*string itself*: a two-character string yields its two characters, any other
length raises `ValueError`. -/
def rsplitUnpack (s : String) : Except PyErr (String × String) :=
  if s.data.contains '.' then
    .ok (beforeLastDot s, afterLastDot s)
  else
    match s.data with
    | [a, b] => .ok (⟨[a]⟩, ⟨[b]⟩)
    | _ => .error (.valueError "cannot unpack string into param_name, param_type")

/-- `_blocks_to_block_sizes(total_size, blocks)`: convert a block count
(`Sum.inl`) or a list of block weights (`Sum.inr`) into block sizes.  The
Python `assert` statements become the `.error` branches.  Python's `%` raises
`ZeroDivisionError` when the divisor is zero (a zero-sum weight list, or a
zero count), *before* the assert is evaluated; since Lean's `%` is total,
that case is modelled by an explicit zero test in front of each divisibility
check. -/
def _blocks_to_block_sizes (total_size : Nat) (blocks : Nat ⊕ List Nat) :
    Except PyErr (List Nat) :=
  match blocks with
  | .inr bs =>
      let total_blocks := bs.sum
      if total_blocks = 0 then
        .error (.zeroDivisionError "integer modulo by zero")
      else if total_size % total_blocks = 0 then
        let part_size := total_size / total_blocks
        .ok (bs.map (fun block => part_size * block))
      else
        .error (.assertionError ("Cannot split " ++ toString total_size ++ " in proportional blocks"))
  | .inl n =>
      if n = 0 then
        .error (.zeroDivisionError "integer modulo by zero")
      else if total_size % n = 0 then
        .ok (List.replicate n (total_size / n))
      else
        .error (.assertionError ("Prepacked is not divisible by " ++ toString n))

/-- `_get_parameter_tp_plan(parameter_name, tp_plan)`: exact lookup of the
generic name, then one-level parent-prefix fallback, else `None`.  The Python
`dict` is modelled as an association list with unique keys. -/
def _get_parameter_tp_plan (parameter_name : String) (tp_plan : List (String × String)) :
    Option String :=
  let generic_param_name := genericName parameter_name
  match tp_plan.lookup generic_param_name with
  | some tag => some tag
  | none =>
      if generic_param_name.data.contains '.' then
        tp_plan.lookup (beforeLastDot generic_param_name)
      else
        none

/-- Whether `dim` is one of the axis indices accepted by the slicing branches
of `get_packed_weights` and `get_tensor_shard` (`0`, `1`, `-2`, `2`, `-1`);
any other value raises `ValueError`. -/
def supportedDim (dim : Int) : Bool :=
  dim == 0 || dim == 1 || dim == -2 || dim == 2 || dim == -1

/-- The `tensors_slices` accumulation loop of `get_packed_weights`: for each
block, the contiguous index range `block_offset + rank*shard_block_size ..
block_offset + (rank+1)*shard_block_size` is appended, and `block_offset`
advances by the block size. -/
def tensors_slices (block_sizes : List Nat) (world_size rank block_offset : Nat) :
    List Nat :=
  match block_sizes with
  | [] => []
  | block_size :: rest =>
      let shard_block_size := block_size / world_size
      List.range' (block_offset + rank * shard_block_size) shard_block_size
        ++ tensors_slices rest world_size rank (block_offset + block_size)

/-- `get_packed_weights(param, empty_param, device_mesh, rank, dim)` along the
sharded axis.  `param` is the tensor's cross-section function along that axis
and `empty_total` is `empty_param.shape[dim]`.  Block sizes come from
`_blocks_to_block_sizes(total_size, blocks=2)`; the selected indices are
gathered in block order.  All supported `dim` branches perform this same index
selection along their own axis; unsupported `dim` raises `ValueError`.  (The
F8_E4M3 upcast-before-slice is value-preserving and invisible in this model.) -/
def get_packed_weights (param : Nat → α) (empty_total : Nat)
    (world_size rank : Nat) (dim : Int) : Except PyErr (List α) :=
  match _blocks_to_block_sizes empty_total (.inl 2) with
  | .error e => .error e
  | .ok block_sizes =>
      if supportedDim dim then
        .ok ((tensors_slices block_sizes world_size rank 0).map param)
      else
        .error (.valueError "Unsupported dim, only dim 0, 1 or 2 are supported")

/-- `repack_weights(packed_parameter, sharded_dim, world_size, num_blocks)`
along the sharded axis.  The source views the sharded axis as
`(world_size, num_blocks, shard_chunk_size)`, swaps the first two of those
axes, and reshapes back; on axis indices this sends output position
`j = b*(world_size*chunk) + w*chunk + c` to input position
`w*(num_blocks*chunk) + b*chunk + c`.  The `view` call requires the axis
extent to factor exactly (else PyTorch raises); `num_blocks ≠ 2` raises
`ValueError` up front. -/
def repack_weights [Inhabited α] (packed_parameter : List α)
    (world_size num_blocks : Nat) : Except PyErr (List α) :=
  if num_blocks ≠ 2 then
    .error (.valueError "Num blocks different from 2 is not supported yet.")
  else
    let total_size_on_sharded_dim := packed_parameter.length
    let original_block_size_on_dim := total_size_on_sharded_dim / num_blocks
    let shard_chunk_size := original_block_size_on_dim / world_size
    if world_size * (num_blocks * shard_chunk_size) ≠ total_size_on_sharded_dim then
      .error (.valueError "shape cannot be viewed as world_size, num_blocks, chunk")
    else
      .ok ((List.range total_size_on_sharded_dim).map (fun j =>
        packed_parameter.getD
          ((j / shard_chunk_size % world_size) * (num_blocks * shard_chunk_size)
            + (j / (world_size * shard_chunk_size)) * shard_chunk_size
            + j % shard_chunk_size)
          default))

/-- The full-gather of the per-rank packed shards: every rank's
`get_packed_weights` output concatenated in rank order along the sharded axis
(what `DTensor.full_tensor()` produces for a `Shard(dim)` placement). -/
def full_gather_packed (param : Nat → α) (empty_total world_size : Nat)
    (dim : Int) : Except PyErr (List α) :=
  ((List.range world_size).mapM
      (fun rank => get_packed_weights param empty_total world_size rank dim)).map
    List.flatten

/-- The rank-major interleaved index permutation realised by concatenating the
per-rank packed shards: position `i` of the concatenation holds the original
tensor's entry at `interleaveIndex world_size s i`, where `s` is the per-rank
slice size inside one logical block (rank `r` contributes block-0 slice `r`
followed by block-1 slice `r`). -/
def interleaveIndex (world_size s i : Nat) : Nat :=
  if i % (2 * s) < s then
    (i / (2 * s)) * s + i % (2 * s)
  else
    world_size * s + (i / (2 * s)) * s + (i % (2 * s) - s)

/-- `get_tensor_shard(param, empty_param, device_mesh, rank, dim)` along the
sharded axis: rank `r` receives the contiguous cross-sections
`r*(size//world_size) .. (r+1)*(size//world_size)`, where `size` is the shape
template's extent of the sharded axis; unsupported `dim` raises `ValueError`. -/
def get_tensor_shard (param : Nat → α) (empty_total : Nat)
    (world_size rank : Nat) (dim : Int) : Except PyErr (List α) :=
  if supportedDim dim then
    .ok ((List.range' (rank * (empty_total / world_size)) (empty_total / world_size)).map param)
  else
    .error (.valueError "Unsupported dim, only dim 0, 1 or 2 are supported")

/-- Concatenation of every rank's `get_tensor_shard` output in rank order
along the sharded axis. -/
def full_gather_shards (param : Nat → α) (empty_total world_size : Nat)
    (dim : Int) : Except PyErr (List α) :=
  ((List.range world_size).mapM
      (fun rank => get_tensor_shard param empty_total world_size rank dim)).map
    List.flatten

/-- Value-level model of a tensor as handled by `shard_and_distribute_module`:
`vals` is the payload along the sharded axis, `dtype` the numeric-format tag
(the `str_to_torch_dtype` keys), `contig` whether `.contiguous()` has been
applied.  `DTensor` wrapping is value-preserving (it only attaches a
placement), so it is not represented. -/
structure MTensor where
  vals : List Int
  dtype : String
  contig : Bool
  deriving DecidableEq, Repr

/-- `translate_to_torch_parallel_style(style)` followed by the resulting
strategy's `partition_tensor`.  Branches mirror the classes:
`ColwiseParallel` (tags `colwise`, `colwise_rep`, `local_colwise`) slices the
weight along `-2` and the bias along `-1`; `RowwiseParallel` (tags `rowwise`,
`rowwise_rep`, `local_rowwise`) slices the weight along `-1` and copies the
bias whole; `PackedRowwiseParallel` (tag `local_packed_rowwise`) uses
`get_packed_weights` along `-1`; `SequenceParallel` copies the parameter
whole.  Tags `gather` and `local` select `GatherParallel` /
`IsolatedParallel`, which do not override the base class's
`partition_tensor`, so the call raises `NotImplementedError`; an unknown tag
raises `ValueError` inside `translate_to_torch_parallel_style`.  Every
successful branch then applies `.to(param_casting_dtype)` and, when
requested, `.contiguous()`. -/
def partition_with_style (style : String) (param : MTensor) (empty_total : Nat)
    (param_type : String) (param_casting_dtype : String) (to_contiguous : Bool)
    (rank world_size : Nat) : Except PyErr MTensor :=
  let f : Nat → Int := fun i => param.vals.getD i 0
  let finish : List Int → MTensor := fun vs =>
    { vals := vs, dtype := param_casting_dtype, contig := to_contiguous || param.contig }
  if style == "colwise" || style == "colwise_rep" || style == "local_colwise" then
    if param_type == "bias" then
      (get_tensor_shard f empty_total world_size rank (-1)).map finish
    else
      (get_tensor_shard f empty_total world_size rank (-2)).map finish
  else if style == "rowwise" || style == "rowwise_rep" || style == "local_rowwise" then
    if param_type != "bias" then
      (get_tensor_shard f empty_total world_size rank (-1)).map finish
    else
      .ok (finish param.vals)
  else if style == "local_packed_rowwise" then
    (get_packed_weights f empty_total world_size rank (-1)).map finish
  else if style == "sequence_parallel" then
    .ok (finish param.vals)
  else if style == "gather" || style == "local" then
    .error (.notImplementedError "partition_tensor of the TensorParallelLayer base class")
  else
    .error (.valueError ("Unsupported parallel style value " ++ style))

/-- `shard_and_distribute_module(model, param, empty_param, parameter_name,
param_casting_dtype, is_contiguous, rank, device_mesh)`, restricted to the
value it installs on the owning module (the function `setattr`s exactly its
return value, so the installed form is the returned tensor).  Hook
installation is modelled separately (`shard_hook_install`).  The
`try/except NotImplementedError` around `partition_tensor` prints a warning
and leaves `param` exactly as passed — uncast, unsliced, contiguity
untouched; only the *no matching plan entry* branch applies the cast-only
fallback. -/
def shard_and_distribute_module (tp_plan : List (String × String)) (param : MTensor)
    (empty_total : Nat) (parameter_name : String) (param_casting_dtype : String)
    (is_contiguous : Bool) (rank world_size : Nat) : Except PyErr MTensor :=
  match rsplitUnpack parameter_name with
  | .error e => .error e
  | .ok (_param_name, param_type) =>
      match _get_parameter_tp_plan parameter_name tp_plan with
      | some current_module_plan =>
          match partition_with_style current_module_plan param empty_total param_type
              param_casting_dtype is_contiguous rank world_size with
          | .ok p => .ok p
          | .error (.notImplementedError _) => .ok param
          | .error e => .error e
      | none =>
          .ok { vals := param.vals, dtype := param_casting_dtype,
                contig := is_contiguous || param.contig }

/-- Per-module hook bookkeeping: the lengths of `_forward_pre_hooks` /
`_forward_hooks` and the ad-hoc `_is_hooked` flag set by
`shard_and_distribute_module`. -/
structure ModuleHooks where
  preHooks : Nat
  postHooks : Nat
  isHooked : Bool
  deriving DecidableEq, Repr

/-- `distribute_module(module, device_mesh, input_fn, output_fn)`: registers
one forward-pre hook (when `input_fn` is given) and one forward hook (when
`output_fn` is given), but only when the module has no forward-pre hooks yet.
Every call site passes both functions. -/
def distribute_module (hasInputFn hasOutputFn : Bool) (m : ModuleHooks) : ModuleHooks :=
  if m.preHooks = 0 then
    { m with
      preHooks := m.preHooks + (if hasInputFn then 1 else 0),
      postHooks := m.postHooks + (if hasOutputFn then 1 else 0) }
  else m

/-- `prepare_module_tp` of a strategy: calls `distribute_module` with both
hook functions when the strategy installs hooks (`use_dtensor`, or
unconditionally for `IsolatedParallel`), else does nothing. -/
def prepare_module_tp (installsHooks : Bool) (m : ModuleHooks) : ModuleHooks :=
  if installsHooks then distribute_module true true m else m

/-- The hook-installation guard of `shard_and_distribute_module` for the
owning module: when `_is_hooked` is unset, run
`add_tensor_parallel_hooks_to_module` (which prepares the module when a style
resolved for it) and set the flag; otherwise do nothing.  The parent module,
when itself named in the plan, goes through the same `distribute_module`
guard on its own record. -/
def shard_hook_install (hasPlan installsHooks : Bool) (m : ModuleHooks) : ModuleHooks :=
  if !m.isHooked then
    { (if hasPlan then prepare_module_tp installsHooks m else m) with isHooked := true }
  else m

/-- `dict.pop(k)` on the association-list model (keys are unique). -/
def dictPop (d : List (String × String)) (k : String) : List (String × String) :=
  d.filter (fun kv => !(kv.1 == k))

/-- The matching test of one `verify_tp_plan` loop iteration: which plan key
(if any) matches `param_name` — the exact generic name first, then its
parent prefix. -/
def verify_match_rule (tp_plan : List (String × String)) (param_name : String) :
    Option String :=
  let generic_param_name := genericName param_name
  if (tp_plan.lookup generic_param_name).isSome then
    some generic_param_name
  else if generic_param_name.data.contains '.'
      && (tp_plan.lookup (beforeLastDot generic_param_name)).isSome then
    some (beforeLastDot generic_param_name)
  else
    none

/-- One iteration of the `verify_tp_plan` loop over a generic key: unpack
`param_name` (possibly raising, see `rsplitUnpack`), then on a match pop the
matched rule from the (aliased) dict and discard the key from
`unsharded_layers`. -/
def verify_step (st : List (String × String) × List String) (key : String) :
    Except PyErr (List (String × String) × List String) :=
  match rsplitUnpack key with
  | .error e => .error e
  | .ok (param_name, _) =>
      match verify_match_rule st.1 param_name with
      | some rule => .ok (dictPop st.1 rule, st.2.erase key)
      | none => .ok st

/-- Outcome of `verify_tp_plan`: the final contents of the caller's plan dict
(`unused_rules` is the *same* dict — the source writes `unused_rules =
tp_plan` without copying, so the reported unused rules are exactly what is
left in the caller's dict) and the reported unsharded layers. -/
structure VerifyOut where
  tpPlan : List (String × String)
  unshardedLayers : List String
  deriving DecidableEq, Repr

/-- `verify_tp_plan(expected_keys, tp_plan)`: returns early on `None`;
otherwise iterates over the set of generic expected keys, mutating the plan
dict and the unsharded-layer set as in `verify_step`.  Warnings are emitted
from the two returned collections; nothing here aborts except the
string-unpacking `ValueError` inside the loop. -/
def verify_tp_plan (expected_keys : List String)
    (tp_plan : Option (List (String × String))) : Except PyErr (Option VerifyOut) :=
  match tp_plan with
  | none => .ok none
  | some plan =>
      let generic_keys := (expected_keys.map genericName).dedup
      match generic_keys.foldlM verify_step (plan, generic_keys) with
      | .error e => .error e
      | .ok (finalPlan, unsharded) => .ok (some ⟨finalPlan, unsharded⟩)

/-! ## Concrete evaluations of the embedded definitions -/

example : genericName "model.layers.3.self_attn.q_proj.weight"
    = "model.layers.*.self_attn.q_proj.weight" := by decide

example : _get_parameter_tp_plan "model.layers.3.self_attn.q_proj.weight"
    [("model.layers.*.self_attn.q_proj.weight", "colwise")] = some "colwise" := by decide

example : _get_parameter_tp_plan "model.layers.3.self_attn.q_proj.weight"
    [("model.layers.*.self_attn.q_proj", "colwise")] = some "colwise" := by decide

example : _blocks_to_block_sizes 1024 (.inr [2, 1, 1]) = .ok [512, 256, 256] := by decide

example : get_packed_weights (fun i => i) 8 2 0 (-1) = .ok [0, 1, 4, 5] := by decide

example : get_packed_weights (fun i => i) 8 2 1 (-1) = .ok [2, 3, 6, 7] := by decide

example : full_gather_packed (fun i => i) 8 2 (-1) = .ok [0, 1, 4, 5, 2, 3, 6, 7] := by decide

example : repack_weights [0, 1, 4, 5, 2, 3, 6, 7] 2 2 = .ok [0, 1, 2, 3, 4, 5, 6, 7] := by
  decide

example : (List.range 8).map (interleaveIndex 2 2) = [0, 1, 4, 5, 2, 3, 6, 7] := by decide

example : full_gather_shards (fun i => i) 6 3 0 = .ok [0, 1, 2, 3, 4, 5] := by decide

example :
    verify_tp_plan ["model.layers.0.mlp.weight", "model.norm.weight"]
      (some [("model.layers.*.mlp", "colwise"), ("model.embed", "rowwise")]) =
    .ok (some ⟨[("model.embed", "rowwise")], ["model.norm.weight"]⟩) := by decide

example :
    shard_and_distribute_module [("layer", "gather")] ⟨[5, 7], "F32", false⟩ 2
      "layer.weight" "BF16" true 0 1 = .ok ⟨[5, 7], "F32", false⟩ := by decide

example :
    shard_and_distribute_module [] ⟨[5, 7], "F32", false⟩ 2
      "layer.weight" "BF16" true 0 1 = .ok ⟨[5, 7], "BF16", true⟩ := by decide

example :
    shard_and_distribute_module [("layer.weight", "colwise")] ⟨[5, 7, 9, 11], "F32", false⟩ 4
      "layer.weight" "BF16" true 1 2 = .ok ⟨[9, 11], "BF16", true⟩ := by decide

/-! ## Helper lemmas -/

lemma flatMap_range_uniform {α : Type} (L : Nat) (hL : 0 < L) (h : Nat → Nat → α) :
    ∀ n : Nat, (List.range n).flatMap (fun r => (List.range L).map (h r)) =
      (List.range (n * L)).map (fun i => h (i / L) (i % L)) := by
  intro n
  induction n with
  | zero => simp
  | succ n ih =>
      rw [List.range_succ, List.flatMap_append, ih, Nat.succ_mul, List.range_add,
        List.map_append, List.map_map]
      congr 1
      · simp only [List.flatMap_cons, List.flatMap_nil, List.append_nil]
        apply List.map_congr_left
        intro x hx
        rw [List.mem_range] at hx
        have hdiv : (n * L + x) / L = n := by
          rw [Nat.mul_comm n L, Nat.mul_add_div hL, Nat.div_eq_of_lt hx, Nat.add_zero]
        have hmod : (n * L + x) % L = x := by
          rw [Nat.mul_comm n L, Nat.mul_add_mod, Nat.mod_eq_of_lt hx]
        simp [Function.comp, hdiv, hmod]

lemma map_range_append_two {α : Type} (s : Nat) (f g : Nat → α) :
    (List.range s).map f ++ (List.range s).map g
      = (List.range (2 * s)).map (fun k => if k < s then f k else g (k - s)) := by
  rw [Nat.two_mul, List.range_add, List.map_append, List.map_map]
  congr 1
  · apply List.map_congr_left
    intro x hx
    rw [List.mem_range] at hx
    simp [hx]
  · apply List.map_congr_left
    intro x hx
    have hns : ¬ (s + x < s) := by omega
    simp [Function.comp, hns]

lemma nat_lt_two (x : Nat) (h : x < 2) : x = 0 ∨ x = 1 := by omega

lemma mapM_ok_of_forall {α : Type} (f : Nat → Except PyErr (List α)) (g : Nat → List α) :
    ∀ l : List Nat, (∀ r ∈ l, f r = .ok (g r)) → l.mapM f = .ok (l.map g) := by
  intro l
  induction l with
  | nil => intro _; rfl
  | cons x xs ih =>
      intro h
      rw [List.mapM_cons, h x (by simp), ih (fun r hr => h r (by simp [hr]))]
      rfl

lemma get_packed_weights_eq {α : Type} (param : Nat → α) (W s r : Nat) (hW : 0 < W)
    (dim : Int) (hdim : supportedDim dim = true) :
    get_packed_weights param (2 * (W * s)) W r dim
      = .ok ((List.range' (r * s) s ++ List.range' (W * s + r * s) s).map param) := by
  have hWs : W * s / W = s := Nat.mul_div_cancel_left s hW
  have hb2 : _blocks_to_block_sizes (2 * (W * s)) (.inl 2) = .ok [W * s, W * s] := by
    have hmod : (2 * (W * s)) % 2 = 0 := by omega
    have hdiv : (2 * (W * s)) / 2 = W * s := by omega
    simp [_blocks_to_block_sizes, hmod, hdiv, List.replicate]
  simp only [get_packed_weights, hb2, hdim, if_true]
  simp only [tensors_slices, hWs, Nat.zero_add, List.append_nil]

lemma full_gather_packed_interleave {α : Type} (param : Nat → α) (W s : Nat)
    (hW : 0 < W) (hs : 0 < s) (dim : Int) (hdim : supportedDim dim = true) :
    full_gather_packed param (2 * (W * s)) W dim
      = .ok ((List.range (2 * (W * s))).map (fun i => param (interleaveIndex W s i))) := by
  unfold full_gather_packed
  rw [mapM_ok_of_forall _
    (fun r => (List.range' (r * s) s ++ List.range' (W * s + r * s) s).map param)
    (List.range W) (fun r _ => get_packed_weights_eq param W s r hW dim hdim)]
  simp only [Except.map]
  congr 1
  rw [← List.flatMap_def]
  have h2s : 0 < 2 * s := by omega
  have key : ∀ r : Nat,
      (List.range' (r * s) s ++ List.range' (W * s + r * s) s).map param
        = (List.range (2 * s)).map (fun k =>
            if k < s then param (r * s + k) else param (W * s + r * s + (k - s))) := by
    intro r
    rw [List.range'_eq_map_range, List.range'_eq_map_range, List.map_append,
      List.map_map, List.map_map, map_range_append_two]
    rfl
  simp only [key]
  rw [flatMap_range_uniform (2 * s) h2s]
  have hWs2 : W * (2 * s) = 2 * (W * s) := by ring
  rw [hWs2]
  apply List.map_congr_left
  intro i _
  by_cases h : i % (2 * s) < s <;> simp [interleaveIndex, h]

lemma repack_index_bound (W s j : Nat) (hW : 0 < W) (hs : 0 < s) (hj : j < 2 * (W * s)) :
    (j / s % W) * (2 * s) + (j / (W * s)) * s + j % s < 2 * (W * s) := by
  have hWs : 0 < W * s := Nat.mul_pos hW hs
  have hw : j / s % W < W := Nat.mod_lt _ hW
  have hb : j / (W * s) < 2 := by
    rw [Nat.div_lt_iff_lt_mul hWs]
    calc j < 2 * (W * s) := hj
      _ = 2 * (W * s) := rfl
  have hc : j % s < s := Nat.mod_lt _ hs
  have h1 : j / (W * s) * s + j % s < 2 * s := by
    rcases nat_lt_two _ hb with h | h <;> rw [h] <;> omega
  calc (j / s % W) * (2 * s) + (j / (W * s)) * s + j % s
      = (j / s % W) * (2 * s) + (j / (W * s) * s + j % s) := Nat.add_assoc _ _ _
    _ < (j / s % W) * (2 * s) + 2 * s := Nat.add_lt_add_left h1 _
    _ = (j / s % W + 1) * (2 * s) := by ring
    _ ≤ W * (2 * s) := Nat.mul_le_mul_right _ (by omega)
    _ = 2 * (W * s) := by ring

lemma repack_index_inverse (W s j : Nat) (hW : 0 < W) (hs : 0 < s)
    (hj : j < 2 * (W * s)) :
    interleaveIndex W s ((j / s % W) * (2 * s) + (j / (W * s)) * s + j % s) = j := by
  have hWs : 0 < W * s := Nat.mul_pos hW hs
  have h2s : 0 < 2 * s := by omega
  have hb : j / (W * s) < 2 := by
    rw [Nat.div_lt_iff_lt_mul hWs]
    exact hj
  have hc : j % s < s := Nat.mod_lt _ hs
  have e1 : j / (W * s) * s + j % s < 2 * s := by
    rcases nat_lt_two _ hb with h | h <;> rw [h] <;> omega
  have regroup : (j / s % W) * (2 * s) + (j / (W * s)) * s + j % s
      = (j / s % W) * (2 * s) + (j / (W * s) * s + j % s) := Nat.add_assoc _ _ _
  have hdivF : ((j / s % W) * (2 * s) + (j / (W * s) * s + j % s)) / (2 * s) = j / s % W := by
    rw [Nat.mul_comm (j / s % W) (2 * s), Nat.mul_add_div h2s, Nat.div_eq_of_lt e1,
      Nat.add_zero]
  have hmodF : ((j / s % W) * (2 * s) + (j / (W * s) * s + j % s)) % (2 * s)
      = j / (W * s) * s + j % s := by
    rw [Nat.mul_comm (j / s % W) (2 * s), Nat.mul_add_mod, Nat.mod_eq_of_lt e1]
  rw [regroup]
  unfold interleaveIndex
  rw [hdivF, hmodF]
  rcases nat_lt_two _ hb with h0 | h1
  · have hjlt : j < W * s := (Nat.div_eq_zero_iff hWs).mp h0
    have hws : j / s < W := (Nat.div_lt_iff_lt_mul hs).mpr hjlt
    have hw' : j / s % W = j / s := Nat.mod_eq_of_lt hws
    rw [h0]
    simp only [Nat.zero_mul, Nat.zero_add]
    rw [if_pos hc, hw', Nat.mul_comm]
    exact Nat.div_add_mod j s
  · have hge : W * s ≤ j := by
      by_contra hlt
      push_neg at hlt
      rw [Nat.div_eq_of_lt hlt] at h1
      omega
    have hj2 : W * s + (j - W * s) = j := Nat.add_sub_cancel' hge
    have hmlt : j - W * s < W * s := by
      have h2 : j < W * s + W * s := by
        calc j < 2 * (W * s) := hj
          _ = W * s + W * s := Nat.two_mul _
      omega
    have hcm : j % s = (j - W * s) % s := by
      conv_lhs => rw [← hj2]
      rw [Nat.mul_comm W s, Nat.mul_add_mod]
    have hjs : j / s = W + (j - W * s) / s := by
      conv_lhs => rw [← hj2]
      rw [Nat.mul_comm W s, Nat.mul_add_div hs]
    have hms : (j - W * s) / s < W := (Nat.div_lt_iff_lt_mul hs).mpr hmlt
    have hw' : j / s % W = (j - W * s) / s := by
      rw [hjs, Nat.add_mod_left, Nat.mod_eq_of_lt hms]
    rw [h1]
    rw [if_neg (by omega), hw', hcm]
    rw [Nat.one_mul, Nat.add_sub_cancel_left]
    rw [Nat.add_assoc, Nat.mul_comm ((j - W * s) / s) s, Nat.div_add_mod]
    exact hj2

lemma repack_weights_ok {α : Type} [Inhabited α] (l : List α) (W s : Nat) (hW : 0 < W)
    (hlen : l.length = 2 * (W * s)) :
    repack_weights l W 2 = .ok ((List.range (2 * (W * s))).map (fun j =>
      l.getD ((j / s % W) * (2 * s) + (j / (W * s)) * s + j % s) default)) := by
  have hWsW : W * s / W = s := Nat.mul_div_cancel_left s hW
  have h22 : 2 * (W * s) / 2 = W * s := by omega
  have hcond : W * (2 * s) = 2 * (W * s) := by ring
  simp only [repack_weights, ne_eq, hlen, h22, hWsW, eq_self_iff_true, not_true, if_false,
    hcond]

/-! ## C1: repack is the exact left-inverse of full-gather after partition -/

/-- C1.  For every packed tensor `T` (given as its cross-section function
`param` along the sharded axis, with `total` the axis extent), every mesh size
`W` dividing each of the two logical blocks evenly, and every supported
sharded axis `dim`: applying `get_packed_weights` for every rank `0..W-1`,
concatenating the per-rank shards in rank order along that axis (the
full-gather), and then applying `repack_weights` with `W` and `num_blocks = 2`
yields exactly `T`. -/
theorem repack_left_inverse_of_full_gather {α : Type} [Inhabited α] (param : Nat → α)
    (total W : Nat) (dim : Int) (hW : 0 < W) (htotal : 0 < total)
    (h2 : 2 ∣ total) (hWb : W ∣ total / 2) (hdim : supportedDim dim = true) :
    (full_gather_packed param total W dim).bind (fun g => repack_weights g W 2)
      = .ok ((List.range total).map param) := by
  have hts : total = 2 * (W * (total / 2 / W)) := by
    rw [Nat.mul_div_cancel' hWb, Nat.mul_div_cancel' h2]
  set s := total / 2 / W with hs_def
  have hs : 0 < s := by
    rcases Nat.eq_zero_or_pos s with h0 | h
    · rw [h0, Nat.mul_zero, Nat.mul_zero] at hts
      omega
    · exact h
  rw [hts, full_gather_packed_interleave param W s hW hs dim hdim]
  show repack_weights _ W 2 = _
  rw [repack_weights_ok _ W s hW (by simp)]
  congr 1
  apply List.map_congr_left
  intro j hj
  rw [List.mem_range] at hj
  have hb := repack_index_bound W s j hW hs hj
  rw [List.getD_eq_getElem _ _ (by simpa using hb), List.getElem_map, List.getElem_range,
    repack_index_inverse W s j hW hs hj]

/-- Witness for C1 at a concrete packed tensor: axis extent 8, `W = 2`,
identity cross-sections, sharding along the last axis. -/
theorem repack_left_inverse_of_full_gather_witness :
    (full_gather_packed (fun i => i) 8 2 (-1)).bind (fun g => repack_weights g 2 2)
      = .ok ((List.range 8).map (fun i => i)) :=
  repack_left_inverse_of_full_gather (fun i => i) 8 2 (-1) (by decide) (by decide)
    (by decide) (by decide) (by decide)

/-! ## C7: concatenating the per-rank packed shards -/

/-- Counterexample to C7 as stated: for the packed tensor `[0, 1, 2, 3]`
(axis extent 4), mesh size `W = 2` (each logical block of size 2 is divided
evenly), concatenating the per-rank `get_packed_weights` shards in rank order
gives `[0, 2, 1, 3]`, not the original tensor: the full-gather of the packed
partition does *not* reconstruct the original tensor. -/
theorem packed_concat_not_original :
    full_gather_packed (fun i => i) 4 2 (-1) ≠ .ok ((List.range 4).map (fun i => i)) := by
  decide

/-- C7 (amended).  Concatenating the packed shard produced by
`get_packed_weights` for every rank, in rank order, along the sharded axis
yields the *rank-major interleaved* reordering of the original tensor (rank
`r` contributes slice `r` of block 0 followed by slice `r` of block 1), not
the original tensor itself; position `i` of the concatenation holds the
original entry at `interleaveIndex W (total/2/W) i`.  (The original order is
recovered only after `repack_weights`, see C1.) -/
theorem packed_concat_is_rank_interleaved {α : Type} (param : Nat → α)
    (total W : Nat) (dim : Int) (hW : 0 < W) (htotal : 0 < total)
    (h2 : 2 ∣ total) (hWb : W ∣ total / 2) (hdim : supportedDim dim = true) :
    full_gather_packed param total W dim
      = .ok ((List.range total).map (fun i => param (interleaveIndex W (total / 2 / W) i))) := by
  have hts : total = 2 * (W * (total / 2 / W)) := by
    rw [Nat.mul_div_cancel' hWb, Nat.mul_div_cancel' h2]
  set s := total / 2 / W with hs_def
  have hs : 0 < s := by
    rcases Nat.eq_zero_or_pos s with h0 | h
    · rw [h0, Nat.mul_zero, Nat.mul_zero] at hts
      omega
    · exact h
  rw [hts]
  exact full_gather_packed_interleave param W s hW hs dim hdim

/-- Witness for C7 (amended) at the counterexample's input: the concatenation
of the two rank shards of `[0, 1, 2, 3]` is exactly `[0, 2, 1, 3]`, the
rank-major interleaved reordering. -/
theorem packed_concat_is_rank_interleaved_witness :
    full_gather_packed (fun i => i) 4 2 (-1) = .ok [0, 2, 1, 3] := by
  rw [packed_concat_is_rank_interleaved (fun i => i) 4 2 (-1) (by decide) (by decide)
    (by decide) (by decide) (by decide)]
  decide

/-! ## C8: the plain column/row shard invariant -/

/-- C8.  For every weight whose sharded-axis extent is `H = W * q` (shape
`(H, D)` sharded column-wise: `param i` is row `i`, each a full row of length
`D`), `get_tensor_shard` gives rank `r` the `H / W` consecutive cross-sections
`r*(H/W) .. (r+1)*(H/W)` unchanged (so a weight shard has shape `(H/W, D)`,
and a bias sliced along its own last axis gets the analogous `1/W` slice), and
concatenating all ranks' shards in rank order along the sharded axis
reproduces the original tensor's extent and values exactly.  This is the slice
selected by `ColwiseParallel.partition_tensor` (`-2` for weights, `-1` for
biases). -/
theorem tensor_shard_concat_reconstructs {α : Type} (param : Nat → α) (W q : Nat)
    (dim : Int) (hW : 0 < W) (hq : 0 < q) (hdim : supportedDim dim = true) :
    (∀ r, get_tensor_shard param (W * q) W r dim
        = .ok ((List.range' (r * (W * q / W)) (W * q / W)).map param)) ∧
    (W * q / W = q) ∧
    (∀ r, ∃ shard, get_tensor_shard param (W * q) W r dim = .ok shard ∧
        shard.length = W * q / W) ∧
    full_gather_shards param (W * q) W dim = .ok ((List.range (W * q)).map param) := by
  have hq' : W * q / W = q := Nat.mul_div_cancel_left q hW
  have hshard : ∀ r, get_tensor_shard param (W * q) W r dim
      = .ok ((List.range' (r * (W * q / W)) (W * q / W)).map param) := by
    intro r
    simp only [get_tensor_shard, hdim, if_true]
  refine ⟨hshard, hq', ?_, ?_⟩
  · intro r
    exact ⟨_, hshard r, by simp⟩
  · unfold full_gather_shards
    rw [mapM_ok_of_forall _ (fun r => (List.range' (r * q) q).map param)
      (List.range W) (fun r _ => by rw [hshard r, hq'])]
    simp only [Except.map]
    congr 1
    rw [← List.flatMap_def]
    have key : ∀ r : Nat, (List.range' (r * q) q).map param
        = (List.range q).map (fun k => param (r * q + k)) := by
      intro r
      rw [List.range'_eq_map_range, List.map_map]
      rfl
    simp only [key]
    rw [flatMap_range_uniform q hq]
    apply List.map_congr_left
    intro i hi
    rw [List.mem_range] at hi
    congr 1
    rw [Nat.mul_comm]
    exact Nat.div_add_mod i q

/-- Witness for C8: `H = 6`, `W = 3`, identity rows, sharding along axis `-2`:
rank 1's shard is rows `2, 3` (length `6 / 3 = 2`), and the concatenation of
all three rank shards is the full tensor. -/
theorem tensor_shard_concat_reconstructs_witness :
    get_tensor_shard (fun i => i) 6 3 1 (-2) = .ok [2, 3] ∧
    full_gather_shards (fun i => i) 6 3 (-2) = .ok [0, 1, 2, 3, 4, 5] := by
  have h := tensor_shard_concat_reconstructs (fun i => i) 3 2 (-2) (by decide) (by decide)
    (by decide)
  constructor
  · rw [show ((6 : Nat)) = 3 * 2 by decide]
    rw [h.1 1]
    decide
  · rw [show ((6 : Nat)) = 3 * 2 by decide]
    rw [h.2.2.2]
    decide

/-! ## C3: the plan resolver -/

/-- C3.  For every parameter name and plan, `_get_parameter_tp_plan` replaces
every maximal digit run of the name with `*` (`genericName`), returns the
plan's tag when the generic name is an exact key, otherwise — when the generic
name contains a dot — returns the tag of the parent prefix (last segment
stripped) when that is an exact key, and otherwise returns `none`; no other
matching occurs, and the function is a pure function of its two arguments. -/
theorem plan_resolver_exact_then_parent (parameter_name : String)
    (tp_plan : List (String × String)) :
    (∀ tag, tp_plan.lookup (genericName parameter_name) = some tag →
        _get_parameter_tp_plan parameter_name tp_plan = some tag) ∧
    (tp_plan.lookup (genericName parameter_name) = none →
        (genericName parameter_name).data.contains '.' = true →
        _get_parameter_tp_plan parameter_name tp_plan
          = tp_plan.lookup (beforeLastDot (genericName parameter_name))) ∧
    (tp_plan.lookup (genericName parameter_name) = none →
        (genericName parameter_name).data.contains '.' = false →
        _get_parameter_tp_plan parameter_name tp_plan = none) := by
  refine ⟨?_, ?_, ?_⟩
  · intro tag h
    simp [_get_parameter_tp_plan, h]
  · intro h hdot
    simp only [_get_parameter_tp_plan, h]
    rw [hdot]
    simp
  · intro h hdot
    simp only [_get_parameter_tp_plan, h]
    rw [hdot]
    simp

/-- Witness for C3, at the spec's own example: exact wildcard-key match, the
parent-prefix fallback, and the no-rule case. -/
theorem plan_resolver_exact_then_parent_witness :
    _get_parameter_tp_plan "model.layers.3.self_attn.q_proj.weight"
        [("model.layers.*.self_attn.q_proj", "colwise")] = some "colwise" := by
  have h := (plan_resolver_exact_then_parent "model.layers.3.self_attn.q_proj.weight"
      [("model.layers.*.self_attn.q_proj", "colwise")]).2.1 (by decide) (by decide)
  rw [h]
  decide

/-! ## C4: the block-size calculator -/

/-- C4.  For every positive total and weight list whose sum divides the total,
`_blocks_to_block_sizes` returns `weight_i * (total / sum weights)` per entry
in input order, and the returned sizes sum back to the total
(`blockSizes(1024, [2,1,1]) = [512,256,256]` is the witness); for a (nonzero)
count it requires `total % count = 0` and returns `count` equal blocks of
`total / count`, and when that requirement is violated it raises the
descriptive `Prepacked is not divisible by ...` assertion error instead of
returning; a (nonzero-sum) weight list violating its own divisibility
requirement likewise raises the descriptive `Cannot split ...` assertion
error.  (A zero count or zero-sum weight list never reaches the assert:
Python's `%` raises `ZeroDivisionError` first, as in the embedding.) -/
theorem blocks_to_block_sizes_spec (total : Nat) (weights : List Nat) (count : Nat) :
    (0 < total → weights.sum ∣ total →
        _blocks_to_block_sizes total (.inr weights)
            = .ok (weights.map (fun w => w * (total / weights.sum))) ∧
        (weights.map (fun w => w * (total / weights.sum))).sum = total) ∧
    (0 < count → total % count = 0 →
        _blocks_to_block_sizes total (.inl count)
            = .ok (List.replicate count (total / count))) ∧
    (0 < count → total % count ≠ 0 →
        _blocks_to_block_sizes total (.inl count)
            = .error (.assertionError ("Prepacked is not divisible by " ++ toString count))) ∧
    (weights.sum ≠ 0 → ¬ weights.sum ∣ total →
        _blocks_to_block_sizes total (.inr weights)
            = .error (.assertionError
                ("Cannot split " ++ toString total ++ " in proportional blocks"))) := by
  refine ⟨?_, ?_, ?_, ?_⟩
  · intro htotal hdvd
    have hmod : total % weights.sum = 0 := Nat.dvd_iff_mod_eq_zero.mp hdvd
    have hsum : weights.sum ≠ 0 := by
      intro h0
      rw [h0, zero_dvd_iff] at hdvd
      omega
    constructor
    · simp only [_blocks_to_block_sizes]
      rw [if_neg hsum, if_pos hmod]
      congr 1
      apply List.map_congr_left
      intro w _
      exact Nat.mul_comm _ _
    · calc (weights.map (fun w => w * (total / weights.sum))).sum
          = weights.sum * (total / weights.sum) := by
            have h := List.sum_map_mul_right weights (fun w => w) (total / weights.sum)
            simpa using h
        _ = total := Nat.mul_div_cancel' hdvd
  · intro hcount hmod
    simp only [_blocks_to_block_sizes]
    rw [if_neg (by omega : ¬ count = 0), if_pos hmod]
  · intro hcount hmod
    simp only [_blocks_to_block_sizes]
    rw [if_neg (by omega : ¬ count = 0), if_neg hmod]
  · intro hsum hnd
    have hmod : total % weights.sum ≠ 0 := fun h => hnd (Nat.dvd_of_mod_eq_zero h)
    simp only [_blocks_to_block_sizes]
    rw [if_neg hsum, if_neg hmod]

/-- Witness for C4: the spec's concrete example `blockSizes(1024, [2,1,1]) =
[512,256,256]` (whose sizes sum to 1024), the count form at `1024 / 4`, the
count form's violated divisibility at `1000 % 3 ≠ 0`, and a non-dividing
weight list — each violation raising its descriptive assertion error. -/
theorem blocks_to_block_sizes_spec_witness :
    _blocks_to_block_sizes 1024 (.inr [2, 1, 1]) = .ok [512, 256, 256] ∧
    ([512, 256, 256] : List Nat).sum = 1024 ∧
    _blocks_to_block_sizes 1024 (.inl 4) = .ok [256, 256, 256, 256] ∧
    _blocks_to_block_sizes 1000 (.inl 3)
      = .error (.assertionError "Prepacked is not divisible by 3") ∧
    _blocks_to_block_sizes 1000 (.inr [3])
      = .error (.assertionError "Cannot split 1000 in proportional blocks") := by
  have h1 := (blocks_to_block_sizes_spec 1024 [2, 1, 1] 4).1 (by decide) (by decide)
  have h2 := (blocks_to_block_sizes_spec 1024 [2, 1, 1] 4).2.1 (by decide) (by decide)
  have h3 := (blocks_to_block_sizes_spec 1000 [3] 3).2.2.1 (by decide) (by decide)
  have h4 := (blocks_to_block_sizes_spec 1000 [3] 3).2.2.2 (by decide) (by decide)
  refine ⟨?_, by decide, ?_, ?_, ?_⟩
  · rw [h1.1]; decide
  · rw [h2]; decide
  · rw [h3]; decide
  · rw [h4]; decide

/-! ## C2: the NotImplementedError recovery path of the shard coordinator -/

/-- Counterexample to C2 as stated: for parameter `layer.weight` whose
resolved style is `gather` (whose `partition_tensor` raises
`NotImplementedError`), `shard_and_distribute_module` installs the parameter
*exactly as passed*: dtype stays `"F32"` (it is *not* cast to the requested
`"BF16"`) and the tensor is *not* made contiguous although `is_contiguous`
was requested — so the claimed "cast-only fallback form" does not hold for
the not-implemented recovery path. -/
theorem shard_nie_keeps_param_counterexample :
    shard_and_distribute_module [("layer", "gather")] ⟨[5, 7], "F32", false⟩ 2
        "layer.weight" "BF16" true 0 1 = .ok ⟨[5, 7], "F32", false⟩ ∧
    ("F32" : String) ≠ "BF16" ∧ (false : Bool) ≠ true := by decide

/-- C2 (amended).  For every parameter (with a dotted name) whose resolved
style's `partition_tensor` raises `NotImplementedError` — exactly the
`gather` and `local` (isolate) styles, which do not override the base
class's partition — `shard_and_distribute_module` recovers locally: it
reports a warning, does not abort, and installs the parameter on the owning
module *unchanged* (original values, original dtype, original contiguity;
never sharded).  The cast-to-target-dtype / make-contiguous fallback applies
only when *no* style resolves. -/
theorem shard_nie_installs_param_unchanged (tp_plan : List (String × String))
    (param : MTensor) (empty_total : Nat) (parameter_name : String)
    (param_casting_dtype : String) (is_contiguous : Bool) (rank world_size : Nat)
    (hdot : parameter_name.data.contains '.' = true)
    (hstyle : _get_parameter_tp_plan parameter_name tp_plan = some "gather"
        ∨ _get_parameter_tp_plan parameter_name tp_plan = some "local") :
    shard_and_distribute_module tp_plan param empty_total parameter_name
        param_casting_dtype is_contiguous rank world_size = .ok param := by
  have hg : ∀ (p : MTensor) (e : Nat) (t d : String) (c : Bool) (r w : Nat),
      partition_with_style "gather" p e t d c r w
        = .error (.notImplementedError "partition_tensor of the TensorParallelLayer base class") :=
    fun _ _ _ _ _ _ _ => rfl
  have hl : ∀ (p : MTensor) (e : Nat) (t d : String) (c : Bool) (r w : Nat),
      partition_with_style "local" p e t d c r w
        = .error (.notImplementedError "partition_tensor of the TensorParallelLayer base class") :=
    fun _ _ _ _ _ _ _ => rfl
  unfold shard_and_distribute_module rsplitUnpack
  rw [hdot]
  rcases hstyle with h | h <;> rw [h] <;> simp only [if_true] <;>
    [rw [hg]; rw [hl]]

/-- Witness for C2 (amended): style `local` resolved via the parent rule for
`mlp.fc.weight`; the installed parameter is the original, bit for bit. -/
theorem shard_nie_installs_param_unchanged_witness :
    shard_and_distribute_module [("mlp.fc", "local")] ⟨[1, 2, 3], "F64", true⟩ 3
        "mlp.fc.weight" "F16" false 1 2 = .ok ⟨[1, 2, 3], "F64", true⟩ :=
  shard_nie_installs_param_unchanged [("mlp.fc", "local")] ⟨[1, 2, 3], "F64", true⟩ 3
    "mlp.fc.weight" "F16" false 1 2 (by decide) (Or.inr (by decide))

/-! ## C9: hook-installation idempotency -/

/-- C9.  Hook installation is idempotent per module: a second invocation of
`distribute_module` (always called with both hook functions) is a no-op
because the module already has a forward-pre hook, and a second invocation of
the `shard_and_distribute_module` guard is a no-op because the module's
`_is_hooked` flag is set; from a fresh module exactly one hook pair is active
after one, and still after two, invocations. -/
theorem hook_installation_idempotent (m : ModuleHooks)
    (hasOutputFn hasPlan installsHooks : Bool) :
    (distribute_module true hasOutputFn (distribute_module true hasOutputFn m)
        = distribute_module true hasOutputFn m) ∧
    (shard_hook_install hasPlan installsHooks
        (shard_hook_install hasPlan installsHooks m)
      = shard_hook_install hasPlan installsHooks m) ∧
    ((distribute_module true true ⟨0, 0, false⟩).preHooks = 1 ∧
      (distribute_module true true ⟨0, 0, false⟩).postHooks = 1) ∧
    ((shard_hook_install true true ⟨0, 0, false⟩).preHooks = 1 ∧
      (shard_hook_install true true ⟨0, 0, false⟩).postHooks = 1) ∧
    ((shard_hook_install true true (shard_hook_install true true ⟨0, 0, false⟩)).preHooks = 1 ∧
      (shard_hook_install true true (shard_hook_install true true ⟨0, 0, false⟩)).postHooks = 1) := by
  refine ⟨?_, ?_, by decide, by decide, by decide⟩
  · by_cases h : m.preHooks = 0 <;> simp [distribute_module, h]
  · by_cases h : m.isHooked <;>
      simp [shard_hook_install, prepare_module_tp, distribute_module, h]

/-! ## C5: the verifier's matching relation versus the resolver's -/

/-- Counterexample to C5 as stated: with expected name `a.weight` and plan
`{"a.weight": "colwise"}`, the Plan Resolver resolves the name (exact generic
match), yet `verify_tp_plan` reports the name as unsharded and the rule as
unused — the verifier's matching relation is *not* equivalent to the
resolver's on the same name. -/
theorem verifier_resolver_mismatch :
    _get_parameter_tp_plan "a.weight" [("a.weight", "colwise")] = some "colwise" ∧
    verify_tp_plan ["a.weight"] (some [("a.weight", "colwise")])
      = .ok (some ⟨[("a.weight", "colwise")], ["a.weight"]⟩) := by decide

/-- C5 (amended).  For a dotted expected key the verifier first strips the
key's last segment (`param_name`), and its matching test is then equivalent
to the Plan Resolver applied to that *stripped* name — i.e. the verifier
matches one level shallower than the resolver, not the resolver's own
relation on the full name. -/
theorem verifier_matches_resolver_on_stripped_name (tp_plan : List (String × String))
    (param_name key : String) (hdot : key.data.contains '.' = true) :
    ((verify_match_rule tp_plan param_name).isSome
        = (_get_parameter_tp_plan param_name tp_plan).isSome) ∧
    rsplitUnpack key = .ok (beforeLastDot key, afterLastDot key) := by
  constructor
  · simp only [verify_match_rule, _get_parameter_tp_plan]
    cases h : List.lookup (genericName param_name) tp_plan with
    | some tag => simp [h]
    | none =>
        by_cases hd : (genericName param_name).data.contains '.'
        · have hd' : '.' ∈ (genericName param_name).data := by simpa using hd
          cases h2 : List.lookup (beforeLastDot (genericName param_name)) tp_plan <;>
            simp [h, hd, hd', h2]
        · have hdf : (genericName param_name).data.contains '.' = false := by
            simpa using hd
          have hd' : '.' ∉ (genericName param_name).data := by simpa using hd
          simp [h, hdf, hd']
  · have hd' : '.' ∈ key.data := by simpa using hdot
    simp [rsplitUnpack, hd']

/-- Witness for C5 (amended): for key `a.weight` the verifier's `param_name`
is `a`, and on `a` the match test agrees with the resolver. -/
theorem verifier_matches_resolver_on_stripped_name_witness :
    ((verify_match_rule [("a", "colwise")] "a").isSome
        = (_get_parameter_tp_plan "a" [("a", "colwise")]).isSome) ∧
    rsplitUnpack "a.weight" = .ok ("a", "weight") := by
  have h := verifier_matches_resolver_on_stripped_name [("a", "colwise")] "a" "a.weight"
    (by decide)
  exact ⟨h.1, by rw [h.2]; decide⟩

/-! ## C6: verify_tp_plan on a dotless expected name -/

/-- C6: the failing input.  `verify_tp_plan(["weight"], {})` hits
`param_name, _ = key.rsplit(".", 1) if "." in key else key` with the dotless
key `"weight"`, which tuple-unpacks the six-character *string* and raises
`ValueError` — the verifier does not complete, contradicting its
diagnostic-only contract. -/
theorem verify_tp_plan_dotless_key_raises :
    verify_tp_plan ["weight"] (some [])
      = .error (.valueError "cannot unpack string into param_name, param_type") := by decide

/-! ## C10: verify_tp_plan mutates the caller's plan -/

lemma verify_fold_plan_sublist :
    ∀ (keys : List String) (st : List (String × String) × List String)
      (res : List (String × String) × List String),
      keys.foldlM verify_step st = .ok res → res.1.Sublist st.1 := by
  intro keys
  induction keys with
  | nil =>
      intro st res h
      have h2 : (Except.ok st : Except PyErr (List (String × String) × List String))
          = .ok res := h
      cases h2
      exact List.Sublist.refl _
  | cons k ks ih =>
      intro st res h
      rw [List.foldlM_cons] at h
      cases hstep : verify_step st k with
      | error e =>
          rw [hstep] at h
          exact absurd h (by simp [Bind.bind, Except.bind])
      | ok st2 =>
          rw [hstep] at h
          have h2 : ks.foldlM verify_step st2 = .ok res := h
          have hsub : st2.1.Sublist st.1 := by
            unfold verify_step at hstep
            cases hr : rsplitUnpack k with
            | error e => rw [hr] at hstep; cases hstep
            | ok pr =>
                obtain ⟨pn, sx⟩ := pr
                rw [hr] at hstep
                dsimp only at hstep
                cases hm : verify_match_rule st.1 pn with
                | some rule =>
                    rw [hm] at hstep
                    cases hstep
                    exact List.filter_sublist _
                | none =>
                    rw [hm] at hstep
                    cases hstep
                    exact List.Sublist.refl _
          exact (ih st2 res h2).trans hsub

/-- C10.  `verify_tp_plan` does not leave its plan argument unchanged: the
source aliases the caller's dict as its `unused_rules` working set
(`unused_rules = tp_plan`, no copy) and pops every matched rule from it, so
the dict the caller retains afterwards (`VerifyOut.tpPlan`, which is also the
reported unused-rules set) only ever *loses* entries — it is a sublist of the
original plan — and concretely holds exactly the rules that matched no
expected name: a fully-matched plan is left empty, and an unmatched rule is
the only survivor. -/
theorem verify_tp_plan_mutates_plan :
    (∀ (expected_keys : List String) (plan : List (String × String)) (out : VerifyOut),
        verify_tp_plan expected_keys (some plan) = .ok (some out) →
        out.tpPlan.Sublist plan) ∧
    verify_tp_plan ["layer.weight"] (some [("layer", "colwise")])
      = .ok (some ⟨[], []⟩) ∧
    verify_tp_plan ["a.x.weight", "b.weight"]
        (some [("a.x", "colwise"), ("c", "rowwise")])
      = .ok (some ⟨[("c", "rowwise")], ["b.weight"]⟩) := by
  refine ⟨?_, by decide, by decide⟩
  intro expected_keys plan out h
  simp only [verify_tp_plan] at h
  cases hf : List.foldlM verify_step (plan, (expected_keys.map genericName).dedup)
      (expected_keys.map genericName).dedup with
  | error e => rw [hf] at h; cases h
  | ok res =>
      rw [hf] at h
      obtain ⟨fp, us⟩ := res
      dsimp only at h
      injection h with h1
      injection h1 with h2
      subst h2
      exact verify_fold_plan_sublist _ _ _ hf

/-- Witness for C10: the fully-matched single-rule plan is mutated down to
the empty dict, a sublist of the original. -/
theorem verify_tp_plan_mutates_plan_witness :
    ([] : List (String × String)).Sublist [("layer", "colwise")] :=
  (verify_tp_plan_mutates_plan).1 ["layer.weight"] [("layer", "colwise")] ⟨[], []⟩
    (by decide)
